import Mathlib

/-
Verification development for the MeatBagPnP pick-and-place assistant
(src/meatbag.py).  The Python source is shallowly embedded: table rows are
lists of strings, fallible operations (Python exceptions) return Option,
Qt-level drawing is abstracted away and only the data computed by the core
logic is modelled.  Machine floats that carry exact integer or rational
values in the claims are modelled over the rationals.
-/

/-- Rows of the coordinate table: a list of string fields, as produced by the
CSV reader. -/
abbrev Row : Type := List String

/-- Column-layout settings, mirroring class MeatBagCSVSettings.  col_layer is
an Int because -1 encodes the absence of a layer column. -/
structure MeatBagCSVSettings where
  col_layer : Int
  col_x : Nat
  col_y : Nat
  col_pn : Nat
  col_des : Nat
  col_com : Nat
  row_start : Nat

/-- Settings of MeatBagCSVSettingsAltium. -/
def altiumSettings : MeatBagCSVSettings :=
  { col_layer := 2, col_x := 4, col_y := 5, col_pn := 8, col_des := 0,
    col_com := 1, row_start := 1 }

/-- Settings of MeatBagCSVSettingsKicadSingleLayer. -/
def kicadSingleSettings : MeatBagCSVSettings :=
  { col_layer := -1, col_x := 3, col_y := 4, col_pn := 1, col_des := 0,
    col_com := 1, row_start := 1 }

/-- Settings of MeatBagCSVSettingsKicadMultiLayer. -/
def kicadMultiSettings : MeatBagCSVSettings :=
  { kicadSingleSettings with col_layer := 6 }

/-- Python str.lower, on the character list of a string (ASCII-faithful). -/
def pyLower (s : String) : String := ⟨s.data.map Char.toLower⟩

/-- Python s.lower().startswith(p): the character list of p is an initial
segment of the lowered character list of s. -/
def lowerStartsWith (s p : String) : Bool :=
  p.data.isPrefixOf (s.data.map Char.toLower)

/-- Python slicing t[:3], used for target_side[:3]. -/
def pyTake3 (t : String) : String := ⟨t.data.take 3⟩

/-- Contiguous-substring test on character lists; Boolean counterpart of the
Python expression `a in b` for strings. -/
def listInfixB (sub : List Char) : List Char → Bool
  | [] => sub.isEmpty
  | c :: t => sub.isPrefixOf (c :: t) || listInfixB sub t

/-- Python `a in b` for strings a, b (case-sensitive contiguous substring). -/
def pyIn (a b : String) : Bool := listInfixB a.data b.data

/-- The proposition that string a occurs as a contiguous substring of b. -/
def occursIn (a b : String) : Prop := ∃ p q, b.data = p ++ a.data ++ q

theorem isPrefixOf_iff_exists {α : Type} [DecidableEq α] :
    ∀ (a l : List α), a.isPrefixOf l = true ↔ ∃ t, l = a ++ t := by
  intro a
  induction a with
  | nil => intro l; simp [List.isPrefixOf]
  | cons x xs ih =>
    intro l
    cases l with
    | nil =>
      simp [List.isPrefixOf]
    | cons y ys =>
      simp only [List.isPrefixOf, Bool.and_eq_true, beq_iff_eq, ih ys]
      constructor
      · rintro ⟨hxy, t, rfl⟩; exact ⟨t, by rw [hxy]; rfl⟩
      · rintro ⟨t, h⟩
        rw [List.cons_append] at h
        injection h with h1 h2
        exact ⟨h1.symm, t, h2⟩

theorem listInfixB_iff (a : List Char) :
    ∀ l, listInfixB a l = true ↔ ∃ p q, l = p ++ a ++ q := by
  intro l
  induction l with
  | nil =>
    simp only [listInfixB, List.isEmpty_iff]
    constructor
    · rintro rfl; exact ⟨[], [], rfl⟩
    · rintro ⟨p, q, h⟩
      rcases List.append_eq_nil.mp (List.append_eq_nil.mp h.symm).1 with ⟨_, h2⟩
      exact h2
  | cons c t ih =>
    simp only [listInfixB, Bool.or_eq_true, isPrefixOf_iff_exists, ih]
    constructor
    · rintro (⟨s, hs⟩ | ⟨p, q, rfl⟩)
      · exact ⟨[], s, by simpa using hs⟩
      · exact ⟨c :: p, q, rfl⟩
    · rintro ⟨p, q, h⟩
      cases p with
      | nil => exact Or.inl ⟨q, by simpa using h⟩
      | cons x p' =>
        injection h with h1 h2
        exact Or.inr ⟨p', q, h2⟩

theorem pyIn_iff (a b : String) : pyIn a b = true ↔ occursIn a b :=
  listInfixB_iff a.data b.data

theorem occursIn_length_le {a b : String} (h : occursIn a b) :
    a.length ≤ b.length := by
  rcases h with ⟨p, q, hpq⟩
  have hlen : b.data.length = p.length + a.data.length + q.length := by
    rw [hpq]; simp [List.length_append]; omega
  have ha : a.length = a.data.length := rfl
  have hb : b.length = b.data.length := rfl
  omega

/-- Matching test of process_new_pn for a single table field against a scanned
part number: (len(field) > 4 and field in pn) or pn in field.  Case-sensitive
by construction. -/
def pnFieldMatches (field pn : String) : Bool :=
  (decide (field.length > 4) && pyIn field pn) || pyIn pn field

/-- Matching test of process_new_com for a single value/comment field:
(len(field) > 3 and field in com) or com in field. -/
def comFieldMatches (field com : String) : Bool :=
  (decide (field.length > 3) && pyIn field com) || pyIn com field

/-- The matchlist loop of process_new_pn: indices i in range(len(pdb)) whose
field matches the scanned token. -/
def pnMatchlist (pdb : List String) (pn : String) : List Nat :=
  (List.range pdb.length).filter (fun i => pnFieldMatches (pdb.getD i "") pn)

/-- The matchlist loop of process_new_com. -/
def comMatchlist (pdc : List String) (com : String) : List Nat :=
  (List.range pdc.length).filter (fun i => comFieldMatches (pdc.getD i "") com)

/-- Modelled from the claim text of C1 (not from the source): a field matches
when EITHER its length exceeds the stated minimum threshold -- 5 for
part-number matching -- and it occurs inside the token, OR the token occurs
inside the field. -/
def claimPnFieldMatches (field pn : String) : Bool :=
  (decide (field.length > 5) && pyIn field pn) || pyIn pn field

/-- Modelled from the claim text of C1 (not from the source): the
value/comment variant, with the stated minimum threshold 4. -/
def claimComFieldMatches (field com : String) : Bool :=
  (decide (field.length > 4) && pyIn field com) || pyIn com field

/-- Classification of a layer-cell text, as in isTopLayer: lowered text
starting with "top" is the top side, starting with "bot" the bottom side,
anything else raises ValueError (None here). -/
def classifyLayer (t : String) : Option Bool :=
  if lowerStartsWith t "top" then some true
  else if lowerStartsWith t "bot" then some false
  else none

/-- The per-row filter of update_table_for_selected_side: keep a data row for
target_side ("top"/"bottom") when (len(row) > col_layer and col_layer >= 0)
and row[col_layer].lower().startswith(target_side[:3]); with no layer column
(col_layer < 0) keep it exactly when target_side == "top".  Rows satisfying
neither branch are dropped. -/
def sideFilterPred (s : MeatBagCSVSettings) (target_side : String) (row : Row) : Bool :=
  if 0 ≤ s.col_layer ∧ s.col_layer < (row.length : Int) then
    lowerStartsWith ((row.get? s.col_layer.toNat).getD "") (pyTake3 target_side)
  else if s.col_layer < 0 then target_side == "top"
  else false

/-- Index view of the side filter over the accepted data rows: the indices,
in table order, whose row is kept for the given target side. -/
def sideIndices (s : MeatBagCSVSettings) (data : List Row) (target_side : String) :
    List Nat :=
  (List.range data.length).filter (fun i => sideFilterPred s target_side (data.getD i []))

/-- Decidability of a row's side: either no layer column is configured, or the
layer field exists and its lowered text starts with "top" or "bot". -/
def sideDecidableRow (s : MeatBagCSVSettings) (row : Row) : Bool :=
  if s.col_layer < 0 then true
  else if s.col_layer < (row.length : Int) then
    lowerStartsWith ((row.get? s.col_layer.toNat).getD "") "top" ||
      lowerStartsWith ((row.get? s.col_layer.toNat).getD "") "bot"
  else false

/-- Python round() with no digits: round half to even, then int() is the
identity on the result. -/
def pyRound (q : ℚ) : ℤ :=
  if q - ⌊q⌋ < 1/2 then ⌊q⌋
  else if 1/2 < q - ⌊q⌋ then ⌊q⌋ + 1
  else if ⌊q⌋ % 2 = 0 then ⌊q⌋ else ⌊q⌋ + 1

/-- Coordinate mapping of PCBPainter.draw_marker, up to the drawn pixels:
scale_x = image_width/board_width (ZeroDivisionError when board_width is 0),
scale_y = image_height/board_height (ZeroDivisionError when board_height is
0), x := x*scale_x, y := image_height - y*scale_y, if mirror then
x := image_width - x, and both coordinates are rounded to integers.  Board
dimensions and coordinates are modelled over the rationals, image dimensions
are integer pixel counts. -/
def draw_marker (boardwidth boardheight : ℚ) (imgw imgh : ℤ) (x y : ℚ)
    (mirror : Bool) : Option (ℤ × ℤ) :=
  if boardwidth = 0 then none
  else if boardheight = 0 then none
  else
    let scale_x : ℚ := (imgw : ℚ) / boardwidth
    let scale_y : ℚ := (imgh : ℚ) / boardheight
    let x1 := x * scale_x
    let y1 := (imgh : ℚ) - y * scale_y
    let x2 := if mirror then (imgw : ℚ) - x1 else x1
    some (pyRound x2, pyRound y1)

theorem pyRound_intCast (n : ℤ) : pyRound (n : ℚ) = n := by
  unfold pyRound
  rw [Int.floor_intCast]
  simp only [sub_self]
  norm_num

/-- In-memory state of MeatBagWindow that the core logic reads and writes:
the side-filtered table (filtered_data, including the header row at index 0),
the checkbox placed-state per table row, the two parallel lookup pools pdb
(part numbers) and pdc (values), the current match lists and designator
display strings, the current placement cursor, the selected build side
(0 = top, 1 = bottom), plus PCBPainter's marker diameter. -/
structure Window where
  settings : MeatBagCSVSettings
  filtered : List Row
  placed : Nat → Bool
  pdb : List String
  pdc : List String
  topDesList : List Nat
  botDesList : List Nat
  topDes : String
  botDes : String
  place : String
  cur_placement : Option Nat
  build_side : Nat
  drawing_all_same_value : Bool
  marker_diameter : Int

/-- Number of columns of the displayed table: header width plus the checkbox
column. -/
def numCols (w : Window) : Nat := (w.filtered.headD []).length + 1

/-- Text of table cell (r, c): the stored field, "???" when the row was
shorter than the header (IndexError branch of update_table_for_selected_side),
"" for the checkbox column, and None (AttributeError in Python) outside the
table. -/
def cellText (w : Window) (r c : Nat) : Option String :=
  if r < w.filtered.length ∧ c + 1 < numCols w then
    some ((((w.filtered.get? r).getD []).get? c).getD "???")
  else if r < w.filtered.length ∧ c + 1 = numCols w then some ""
  else none

/-- MeatBagWindow.isTopLayer: True when no layer column is configured,
otherwise classify the text of the layer cell; an unclassifiable text raises
ValueError (None). -/
def isTopLayer (w : Window) (r : Nat) : Option Bool :=
  if w.settings.col_layer < 0 then some true
  else (cellText w r w.settings.col_layer.toNat).bind classifyLayer

/-- The match list of the side selected for building. -/
def activeParts (w : Window) : List Nat :=
  if w.build_side = 0 then w.topDesList else w.botDesList

/-- MeatBagWindow.update_placement: clear the all-same-value flag; with a
cursor, show that row's designator and draw its marker (the draws are
external; the reads that can raise are kept); without a cursor, report
"Not Found" when both match lists are empty and "Done" otherwise. -/
def update_placement (w : Window) : Option Window :=
  let w1 := { w with drawing_all_same_value := false }
  match w.cur_placement with
  | some r =>
    (cellText w1 r w1.settings.col_des).bind fun des =>
    (cellText w1 r w1.settings.col_x).bind fun _xs =>
    (cellText w1 r w1.settings.col_y).bind fun _ys =>
    (isTopLayer w1 r).map fun _top =>
    { w1 with place := des }
  | none =>
    some (if w1.topDesList.length = 0 ∧ w1.botDesList.length = 0 then
            { w1 with place := "Not Found" }
          else { w1 with place := "Done" })

/-- The cursor-scanning part of find_next_placement: the first row of the
active side's match list whose checkbox is unchecked, or None. -/
def find_next_cursor (w : Window) : Window :=
  { w with cur_placement := (activeParts w).find? (fun p => !(w.placed p)) }

/-- MeatBagWindow.find_next_placement: recompute the cursor, then refresh the
placement display. -/
def find_next_placement (w : Window) : Option Window :=
  update_placement (find_next_cursor w)

/-- The checkbox-marking step of timesUp on the advance sentinel: check the
current row's box; with no cursor the TypeError is swallowed and nothing is
marked. -/
def markCurrentPlaced (w : Window) : Window :=
  match w.cur_placement with
  | some r => { w with placed := fun p => if p = r then true else w.placed p }
  | none => w

/-- The cursor transition of the advance sentinel: mark the current row
placed, then re-scan the active match list. -/
def advanceCursorOnly (w : Window) : Window :=
  find_next_cursor (markCurrentPlaced w)

/-- The `scan == " "` branch of MeatBagWindow.timesUp: mark the current row
placed, then find_next_placement (recolourTable is purely visual). -/
def timesUp_advance (w : Window) : Option Window :=
  find_next_placement (markCurrentPlaced w)

/-- The partition loop shared by process_new_pn and process_new_com: walk the
match list, sending each row to the top or bottom designator list according
to isTopLayer and accumulating the designator display strings; a ValueError
from isTopLayer aborts the whole operation. -/
def partitionMatches (w : Window) :
    List Nat → List Nat → List Nat → String → String →
      Option (List Nat × List Nat × String × String)
  | [], t, b, ts, bs => some (t, b, ts, bs)
  | r :: rest, t, b, ts, bs =>
    (isTopLayer w r).bind fun top =>
    (cellText w r w.settings.col_des).bind fun des =>
    if top then partitionMatches w rest (t ++ [r]) b (ts ++ des ++ ", ") bs
    else partitionMatches w rest t (b ++ [r]) ts (bs ++ des ++ ", ")

/-- MeatBagWindow.process_new_pn: build the matchlist over pdb, partition it
by side, store lists and display strings, and optionally advance the
placement. -/
def process_new_pn (w : Window) (pn : String) (upd : Bool) : Option Window :=
  (partitionMatches w (pnMatchlist w.pdb pn) [] [] "" "").bind
    fun (t, b, ts, bs) =>
      let w1 := { w with topDesList := t, botDesList := b, topDes := ts, botDes := bs }
      if upd then find_next_placement w1 else some w1

/-- MeatBagWindow.process_new_com: the value/comment variant of
process_new_pn, over pdc. -/
def process_new_com (w : Window) (com : String) (upd : Bool) : Option Window :=
  (partitionMatches w (comMatchlist w.pdc com) [] [] "" "").bind
    fun (t, b, ts, bs) =>
      let w1 := { w with topDesList := t, botDesList := b, topDes := ts, botDes := bs }
      if upd then find_next_placement w1 else some w1

/-- The filtered table built by update_table_for_selected_side: the header
row followed by the data rows kept by the side filter. -/
def filtered_data (s : MeatBagCSVSettings) (all : List Row) (side : Nat) : List Row :=
  match all with
  | [] => []
  | header :: data =>
    header :: data.filter (sideFilterPred s (if side = 0 then "top" else "bottom"))

/-- The pdb pool rebuilt from the filtered table: the part-number column of
every filtered row, "" when the row is too short. -/
def pdbOf (s : MeatBagCSVSettings) (filtered : List Row) : List String :=
  filtered.map (fun row => (row.get? s.col_pn).getD "")

/-- The pdc pool rebuilt from the filtered table: the value/comment column of
every filtered row, "" when the row is too short. -/
def pdcOf (s : MeatBagCSVSettings) (filtered : List Row) : List String :=
  filtered.map (fun row => (row.get? s.col_com).getD "")

/-- MeatBagWindow.update_table_for_selected_side: with no loaded data a
no-op; otherwise rebuild the displayed table from the side filter, recreate
every checkbox unchecked, and rebuild both lookup pools from the filtered
rows. -/
def update_table_for_selected_side (w : Window) (all : List Row) : Window :=
  if all = [] then w
  else
    let f := filtered_data w.settings all w.build_side
    { w with filtered := f, pdb := pdbOf w.settings f, pdc := pdcOf w.settings f,
             placed := fun _ => false }

/-- PCBPainter.marker_diameter_increment: grow by 10, request a redraw. -/
def marker_diameter_increment (w : Window) : Window × Bool :=
  ({ w with marker_diameter := w.marker_diameter + 10 }, true)

/-- PCBPainter.marker_diameter_decrement: shrink by 10 unless already below
10. -/
def marker_diameter_decrement (w : Window) : Window × Bool :=
  if w.marker_diameter < 10 then (w, false)
  else ({ w with marker_diameter := w.marker_diameter - 10 }, true)

/-- The coordinate-collecting loop of toggle_draw_all_of_current_value; the
coordinate cell texts are kept raw (their numeric conversion feeds the
external drawing primitive only). -/
def collectMatching (w : Window) (cur : Nat) (curPn : String) :
    List Nat → Option (List (String × String))
  | [] => some []
  | p :: rest =>
    (cellText w p w.settings.col_pn).bind fun pn =>
    if p ≠ cur ∧ pn = curPn then
      (cellText w p w.settings.col_x).bind fun xs =>
      (cellText w p w.settings.col_y).bind fun ys =>
      (collectMatching w cur curPn rest).map fun more => (xs, ys) :: more
    else collectMatching w cur curPn rest

/-- MeatBagWindow.toggle_draw_all_of_current_value.  Python truthiness makes
a cursor of 0 behave like no cursor; the callback never returns a truthy
value, so it never requests a placement refresh by itself. -/
def toggle_draw_all_of_current_value (w : Window) : Option (Window × Bool) :=
  match w.cur_placement with
  | none => some (w, false)
  | some cur =>
    if cur = 0 then some (w, false)
    else if w.drawing_all_same_value then
      (update_placement { w with drawing_all_same_value := false }).map
        (fun w2 => (w2, false))
    else
      (cellText w cur w.settings.col_pn).bind fun curPn =>
      (collectMatching w cur curPn (activeParts w)).bind fun matching =>
      if matching.length = 0 then some (w, false)
      else
        (update_placement w).map fun w2 =>
          ({ w2 with drawing_all_same_value := true }, false)

/-- MeatBagWindow.process_keystroke: try the three key actions in order
('+', '-', 'a'), each matching against the lowered text, and refresh the
placement when any triggered action returns True. -/
def process_keystroke (w : Window) (txt : String) : Option Window :=
  let t := pyLower txt
  let p1 := if t = "+" then marker_diameter_increment w else (w, false)
  let p2 := if t = "-" then marker_diameter_decrement p1.1 else (p1.1, false)
  (if t = "a" then toggle_draw_all_of_current_value p2.1 else some (p2.1, false)).bind
    fun p3 =>
      if p1.2 || p2.2 || p3.2 then update_placement p3.1 else some p3.1

/-- Outcome of process_new_scan: short scans are dispatched as keystroke
commands and never reach the matcher; long scans become lookup tokens. -/
inductive ScanStep where
  | keystroke (res : Option Window)
  | lookup (token : String) (res : Option Window)

/-- The lookup path of process_new_scan for a scan of length at least 5:
clear the designator displays, try the matcher on the raw token, and when
nothing matched fall back to the barcode/web path (Digikey envelope '[)':
new-style tokens longer than 30 characters are split on '1P' and 'K1K5' and
re-matched; the old-style branch raises NotImplementedError; anything else
fires an external Mouser web lookup and leaves the core state unchanged). -/
def scan_lookup (w : Window) (scan : String) : Option Window :=
  let w0 := { w with topDes := "", botDes := "" }
  (process_new_pn w0 scan false).bind fun w1 =>
  if w1.topDesList.length > 0 || w1.botDesList.length > 0 then
    find_next_placement w1
  else if scan.data.getD 0 ' ' = '[' ∧ scan.data.getD 1 ' ' = ')' then
    if scan.length > 30 then
      ((scan.splitOn "1P").get? 1).bind fun seg =>
        process_new_pn w1 ((seg.splitOn "K1K5").headD "") true
    else none
  else some w1

/-- MeatBagWindow.process_new_scan: scans shorter than 5 characters are
keystroke commands; everything else is a lookup token. -/
def process_new_scan (w : Window) (scan : String) : ScanStep :=
  if scan.length < 5 then ScanStep.keystroke (process_keystroke w scan)
  else ScanStep.lookup scan (scan_lookup w scan)

/-- Python string comparison (less-or-equal) on character lists: lexicographic
by code point. -/
def strLeB : List Char → List Char → Bool
  | [], _ => true
  | _ :: _, [] => false
  | a :: as, b :: bs => if a = b then strLeB as bs else decide (a.toNat < b.toNat)

/-- Python string less-or-equal. -/
def keyLe (a b : String) : Bool := strLeB a.data b.data

theorem char_toNat_injective {a b : Char} (h : a.toNat = b.toNat) : a = b := by
  cases a; cases b
  simp only [Char.toNat] at h
  congr 1
  exact UInt32.toNat.inj h

theorem strLeB_total : ∀ a b : List Char, strLeB a b = true ∨ strLeB b a = true := by
  intro a
  induction a with
  | nil => intro b; left; rfl
  | cons x xs ih =>
    intro b
    cases b with
    | nil => right; rfl
    | cons y ys =>
      by_cases hxy : x = y
      · subst hxy
        simp only [strLeB, if_pos rfl]
        exact ih ys
      · have hyx : y ≠ x := fun h => hxy h.symm
        simp only [strLeB, if_neg hxy, if_neg hyx]
        rcases Nat.lt_trichotomy x.toNat y.toNat with h | h | h
        · left; exact decide_eq_true h
        · exact absurd (char_toNat_injective h) hxy
        · right; exact decide_eq_true h

theorem strLeB_trans :
    ∀ a b c : List Char, strLeB a b = true → strLeB b c = true → strLeB a c = true := by
  intro a
  induction a with
  | nil => intro b c _ _; rfl
  | cons x xs ih =>
    intro b c hab hbc
    cases b with
    | nil => exact absurd hab (by simp [strLeB])
    | cons y ys =>
      cases c with
      | nil => exact absurd hbc (by simp [strLeB])
      | cons z zs =>
        by_cases hxy : x = y
        · subst hxy
          simp only [strLeB, if_pos rfl] at hab
          by_cases hxz : x = z
          · subst hxz
            simp only [strLeB, if_pos rfl] at hbc ⊢
            exact ih ys zs hab hbc
          · simp only [strLeB, if_neg hxz] at hbc ⊢
            exact hbc
        · simp only [strLeB, if_neg hxy] at hab
          have hxylt : x.toNat < y.toNat := of_decide_eq_true hab
          by_cases hyz : y = z
          · subst hyz
            simp only [strLeB, if_neg hxy]
            exact decide_eq_true hxylt
          · simp only [strLeB, if_neg hyz] at hbc
            have hyzlt : y.toNat < z.toNat := of_decide_eq_true hbc
            have hxzlt : x.toNat < z.toNat := Nat.lt_trans hxylt hyzlt
            have hxz : x ≠ z := fun h => Nat.lt_irrefl z.toNat (h ▸ hxzlt)
            simp only [strLeB, if_neg hxz]
            exact decide_eq_true hxzlt

theorem keyLe_total (a b : String) : keyLe a b = true ∨ keyLe b a = true :=
  strLeB_total a.data b.data

theorem keyLe_trans {a b c : String} (h1 : keyLe a b = true) (h2 : keyLe b c = true) :
    keyLe a c = true :=
  strLeB_trans a.data b.data c.data h1 h2

/-- Stable ordered insertion: place x in front of the first element not
below it, keeping equal keys behind earlier arrivals. -/
def orderedInsertB {α : Type} (le : α → α → Bool) (x : α) : List α → List α
  | [] => [x]
  | y :: ys => if le x y then x :: y :: ys else y :: orderedInsertB le x ys

/-- Stable insertion sort; models Python's stable list.sort / sorted under a
total preorder (any two stable sorts agree). -/
def insertionSortB {α : Type} (le : α → α → Bool) : List α → List α
  | [] => []
  | x :: xs => orderedInsertB le x (insertionSortB le xs)

theorem mem_orderedInsertB {α : Type} (le : α → α → Bool) (x : α) :
    ∀ (l : List α) (z : α), z ∈ orderedInsertB le x l ↔ z = x ∨ z ∈ l := by
  intro l
  induction l with
  | nil => intro z; simp [orderedInsertB]
  | cons y ys ih =>
    intro z
    unfold orderedInsertB
    by_cases h : le x y = true
    · rw [if_pos h]; simp [List.mem_cons]
    · rw [if_neg h]
      simp only [List.mem_cons, ih z]
      tauto

theorem perm_orderedInsertB {α : Type} (le : α → α → Bool) (x : α) :
    ∀ l : List α, (orderedInsertB le x l).Perm (x :: l) := by
  intro l
  induction l with
  | nil => exact List.Perm.refl _
  | cons y ys ih =>
    unfold orderedInsertB
    by_cases h : le x y = true
    · rw [if_pos h]
    · rw [if_neg h]
      exact (ih.cons y).trans (List.Perm.swap x y ys)

theorem perm_insertionSortB {α : Type} (le : α → α → Bool) :
    ∀ l : List α, (insertionSortB le l).Perm l := by
  intro l
  induction l with
  | nil => exact List.Perm.refl _
  | cons x xs ih =>
    exact (perm_orderedInsertB le x (insertionSortB le xs)).trans (ih.cons x)

theorem pairwise_orderedInsertB {α : Type} (le : α → α → Bool)
    (htot : ∀ a b, le a b = true ∨ le b a = true)
    (htr : ∀ a b c, le a b = true → le b c = true → le a c = true) (x : α) :
    ∀ l : List α, l.Pairwise (fun a b => le a b = true) →
      (orderedInsertB le x l).Pairwise (fun a b => le a b = true) := by
  intro l
  induction l with
  | nil => intro _; simp [orderedInsertB]
  | cons y ys ih =>
    intro hp
    rcases List.pairwise_cons.mp hp with ⟨hy, hys⟩
    unfold orderedInsertB
    by_cases hxy : le x y = true
    · rw [if_pos hxy]
      refine List.pairwise_cons.mpr ⟨?_, hp⟩
      intro z hz
      rcases List.mem_cons.mp hz with rfl | hz
      · exact hxy
      · exact htr x y z hxy (hy z hz)
    · rw [if_neg hxy]
      have hyx : le y x = true := (htot x y).resolve_left hxy
      refine List.pairwise_cons.mpr ⟨?_, ih hys⟩
      intro z hz
      rcases (mem_orderedInsertB le x ys z).mp hz with rfl | hz
      · exact hyx
      · exact hy z hz

theorem pairwise_insertionSortB {α : Type} (le : α → α → Bool)
    (htot : ∀ a b, le a b = true ∨ le b a = true)
    (htr : ∀ a b c, le a b = true → le b c = true → le a c = true) :
    ∀ l : List α, (insertionSortB le l).Pairwise (fun a b => le a b = true) := by
  intro l
  induction l with
  | nil => simp [insertionSortB]
  | cons x xs ih =>
    exact pairwise_orderedInsertB le htot htr x (insertionSortB le xs) ih

theorem insertionSortB_of_pairwise {α : Type} (le : α → α → Bool) :
    ∀ l : List α, l.Pairwise (fun a b => le a b = true) → insertionSortB le l = l := by
  intro l
  induction l with
  | nil => intro _; rfl
  | cons x xs ih =>
    intro hp
    rcases List.pairwise_cons.mp hp with ⟨hx, hxs⟩
    unfold insertionSortB
    rw [ih hxs]
    cases xs with
    | nil => rfl
    | cons y ys =>
      unfold orderedInsertB
      rw [if_pos (hx y (List.mem_cons_self y ys))]

/-- Insertion into the value_groups dict of group_components_by_value:
append to the group of an existing key, otherwise add a new group at the
end (Python dicts preserve insertion order). -/
def insertGroup (groups : List (String × List Row)) (key : String) (row : Row) :
    List (String × List Row) :=
  match groups with
  | [] => [(key, [row])]
  | (k, g) :: rest =>
    if k = key then (k, g ++ [row]) :: rest else (k, g) :: insertGroup rest key row

/-- The layer part of the grouping key: row[col_layer] if col_layer >= 0
(IndexError when absent), else "top". -/
def layerOf (s : MeatBagCSVSettings) (row : Row) : Option String :=
  if 0 ≤ s.col_layer then row.get? s.col_layer.toNat else some "top"

/-- The grouping key of a data row: the f-string value_layer of
group_components_by_value. -/
def rowKey (s : MeatBagCSVSettings) (row : Row) : Option String :=
  (row.get? s.col_com).bind fun v => (layerOf s row).map fun l => v ++ "_" ++ l

/-- The grouping loop of group_components_by_value: skip rows whose length is
at most col_com, abort (IndexError) when the layer column is missing, and
insert every other row into its group. -/
def buildGroupsAux (s : MeatBagCSVSettings) :
    List (String × List Row) → List Row → Option (List (String × List Row))
  | acc, [] => some acc
  | acc, row :: rest =>
    if row.length ≤ s.col_com then buildGroupsAux s acc rest
    else (rowKey s row).bind fun k => buildGroupsAux s (insertGroup acc k row) rest

/-- Ordering of the groups: sorted(value_groups.items()) compares the
(distinct) keys first, so the group order is the key order. -/
def groupKeyLe (a b : String × List Row) : Bool := keyLe a.1 b.1

/-- Sort key of components within a group:
x[col_des] if len(x) > col_des else "". -/
def desKey (s : MeatBagCSVSettings) (x : Row) : String := (x.get? s.col_des).getD ""

/-- Within-group comparison by designator. -/
def desLe (s : MeatBagCSVSettings) (a b : Row) : Bool := keyLe (desKey s a) (desKey s b)

/-- The stable within-group sort components.sort(key=...). -/
def sortComponents (s : MeatBagCSVSettings) (l : List Row) : List Row :=
  insertionSortB (desLe s) l

/-- MeatBagWindow.group_components_by_value: keep the header row, group the
data rows by the value_layer key, sort the groups by key and each group's
components by designator, and emit header plus the concatenated groups. -/
def group_components_by_value (s : MeatBagCSVSettings) (ppdata : List Row) :
    Option (List Row) :=
  match ppdata with
  | [] => some []
  | header :: data =>
    (buildGroupsAux s [] data).map fun groups =>
      header ::
        ((insertionSortB groupKeyLe groups).map (fun p => sortComponents s p.2)).flatten

/-- Claim C6: with nonzero board dimensions, draw_marker computes
px = x*(image_width/board_width) and
py = image_height - y*(image_height/board_height), replaces px by
image_width - px when mirroring, and rounds both results to the nearest
integer (Python round, ties to even); hence (0,0) maps to (0, image_height)
unmirrored and to (image_width, image_height) mirrored. -/
theorem c6_pixel_mapping (bw bh : ℚ) (iw ih : ℤ) (hbw : bw ≠ 0) (hbh : bh ≠ 0) :
    (∀ (x y : ℚ) (m : Bool),
        draw_marker bw bh iw ih x y m =
          some
            (pyRound (if m then (iw : ℚ) - x * ((iw : ℚ) / bw) else x * ((iw : ℚ) / bw)),
             pyRound ((ih : ℚ) - y * ((ih : ℚ) / bh)))) ∧
    draw_marker bw bh iw ih 0 0 false = some (0, ih) ∧
    draw_marker bw bh iw ih 0 0 true = some (iw, ih) := by
  have h0 : pyRound (0 : ℚ) = 0 := by simpa using pyRound_intCast 0
  have hih : pyRound ((ih : ℚ)) = ih := pyRound_intCast ih
  have hiw : pyRound ((iw : ℚ)) = iw := pyRound_intCast iw
  refine ⟨?_, ?_, ?_⟩
  · intro x y m
    unfold draw_marker
    rw [if_neg hbw, if_neg hbh]
  · unfold draw_marker
    rw [if_neg hbw, if_neg hbh]
    simp [h0, hih]
  · unfold draw_marker
    rw [if_neg hbw, if_neg hbh]
    simp [h0, hih, hiw]

/-- Witness for C6 at board 2x4, image 100x50. -/
theorem c6_witness :
    (2 : ℚ) ≠ 0 ∧ (4 : ℚ) ≠ 0 ∧
      draw_marker 2 4 100 50 0 0 false = some (0, 50) :=
  ⟨by norm_num, by norm_num,
    (c6_pixel_mapping 2 4 100 50 (by norm_num) (by norm_num)).2.1⟩

/-- Claim C7: the coordinate mapping fails (ZeroDivisionError) exactly when a
board dimension is zero, and then produces no pixel coordinates. -/
theorem c7_division_by_zero (bw bh : ℚ) (iw ih : ℤ) (x y : ℚ) (m : Bool) :
    draw_marker bw bh iw ih x y m = none ↔ bw = 0 ∨ bh = 0 := by
  unfold draw_marker
  by_cases h1 : bw = 0
  · simp [h1]
  · by_cases h2 : bh = 0
    · simp [h1, h2]
    · simp [h1, h2]

/-- Witness for C7 at board width 0. -/
theorem c7_witness : draw_marker 0 3 10 10 1 2 true = none :=
  (c7_division_by_zero 0 3 10 10 1 2 true).mpr (Or.inl rfl)

/-- Claim C1 (amended): an index is in the matchlist of process_new_pn /
process_new_com exactly when it indexes the pool and EITHER the field's
length is at least the minimum (5 for part numbers, 4 for values/comments)
and the field occurs as a contiguous substring of the token, OR the token
occurs as a contiguous substring of the field; matching is case-sensitive
(exact character equality throughout). -/
theorem c1_matchlist_characterisation (pool : List String) (tok : String) (i : Nat) :
    (i ∈ pnMatchlist pool tok ↔
      i < pool.length ∧
        ((5 ≤ (pool.getD i "").length ∧ occursIn (pool.getD i "") tok) ∨
          occursIn tok (pool.getD i ""))) ∧
    (i ∈ comMatchlist pool tok ↔
      i < pool.length ∧
        ((4 ≤ (pool.getD i "").length ∧ occursIn (pool.getD i "") tok) ∨
          occursIn tok (pool.getD i ""))) := by
  constructor
  · unfold pnMatchlist
    rw [List.mem_filter, List.mem_range]
    unfold pnFieldMatches
    rw [Bool.or_eq_true, Bool.and_eq_true, decide_eq_true_eq, pyIn_iff, pyIn_iff]
    constructor
    · rintro ⟨h1, ⟨h3, h4⟩ | h4⟩
      · exact ⟨h1, Or.inl ⟨by omega, h4⟩⟩
      · exact ⟨h1, Or.inr h4⟩
    · rintro ⟨h1, ⟨h3, h4⟩ | h4⟩
      · exact ⟨h1, Or.inl ⟨by omega, h4⟩⟩
      · exact ⟨h1, Or.inr h4⟩
  · unfold comMatchlist
    rw [List.mem_filter, List.mem_range]
    unfold comFieldMatches
    rw [Bool.or_eq_true, Bool.and_eq_true, decide_eq_true_eq, pyIn_iff, pyIn_iff]
    constructor
    · rintro ⟨h1, ⟨h3, h4⟩ | h4⟩
      · exact ⟨h1, Or.inl ⟨by omega, h4⟩⟩
      · exact ⟨h1, Or.inr h4⟩
    · rintro ⟨h1, ⟨h3, h4⟩ | h4⟩
      · exact ⟨h1, Or.inl ⟨by omega, h4⟩⟩
      · exact ⟨h1, Or.inr h4⟩

/-- Counterexample to C1 as stated: a part-number field of length exactly 5
(and a value field of length exactly 4) contained in a longer token matches
in the code, whose gate is len(field) > 4 (resp. > 3), while a gate of
"length exceeding 5" (resp. 4) would reject it. -/
theorem c1_counterexample :
    pnFieldMatches "ABCDE" "xABCDEy" = true ∧
      claimPnFieldMatches "ABCDE" "xABCDEy" = false ∧
      comFieldMatches "abcd" "xabcdy" = true ∧
      claimComFieldMatches "abcd" "xabcdy" = false ∧
      1 ∈ pnMatchlist ["", "ABCDE"] "xABCDEy" :=
  ⟨by decide, by decide, by decide, by decide, by decide⟩

theorem sideIndices_mem (s : MeatBagCSVSettings) (data : List Row) (t : String) (i : Nat) :
    i ∈ sideIndices s data t ↔
      i < data.length ∧ sideFilterPred s t (data.getD i []) = true := by
  unfold sideIndices
  rw [List.mem_filter, List.mem_range]

theorem lowerStartsWith_top_bot (t : String)
    (h1 : lowerStartsWith t "top" = true) (h2 : lowerStartsWith t "bot" = true) :
    False := by
  unfold lowerStartsWith at h1 h2
  rcases (isPrefixOf_iff_exists _ _).mp h1 with ⟨t1, e1⟩
  rcases (isPrefixOf_iff_exists _ _).mp h2 with ⟨t2, e2⟩
  rw [e1] at e2
  have e3 : ('t' :: 'o' :: 'p' :: t1 : List Char) = 'b' :: 'o' :: 't' :: t2 := e2
  injection e3 with h4 _
  exact absurd h4 (by decide)

theorem sideFilterPred_top_iff (s : MeatBagCSVSettings) (row : Row) :
    sideFilterPred s "top" row = true ↔
      (s.col_layer < 0 ∨
        (0 ≤ s.col_layer ∧ s.col_layer < (row.length : Int) ∧
          lowerStartsWith ((row.get? s.col_layer.toNat).getD "") "top" = true)) := by
  unfold sideFilterPred
  by_cases hc : 0 ≤ s.col_layer ∧ s.col_layer < (row.length : Int)
  · rw [if_pos hc]
    have e1 : pyTake3 "top" = "top" := rfl
    rw [e1]
    constructor
    · intro h; exact Or.inr ⟨hc.1, hc.2, h⟩
    · rintro (h | ⟨_, _, h⟩)
      · exact absurd hc.1 (not_le.mpr h)
      · exact h
  · rw [if_neg hc]
    by_cases hneg : s.col_layer < 0
    · rw [if_pos hneg]
      constructor
      · intro _; exact Or.inl hneg
      · intro _; decide
    · rw [if_neg hneg]
      constructor
      · intro h; exact absurd h (by decide)
      · rintro (h | ⟨h0, hr, _⟩)
        · exact absurd h hneg
        · exact absurd (And.intro h0 hr) hc

theorem sideFilterPred_bottom_iff (s : MeatBagCSVSettings) (row : Row) :
    sideFilterPred s "bottom" row = true ↔
      (0 ≤ s.col_layer ∧ s.col_layer < (row.length : Int) ∧
        lowerStartsWith ((row.get? s.col_layer.toNat).getD "") "bot" = true) := by
  unfold sideFilterPred
  by_cases hc : 0 ≤ s.col_layer ∧ s.col_layer < (row.length : Int)
  · rw [if_pos hc]
    have e2 : pyTake3 "bottom" = "bot" := rfl
    rw [e2]
    constructor
    · intro h; exact ⟨hc.1, hc.2, h⟩
    · rintro ⟨_, _, h⟩; exact h
  · rw [if_neg hc]
    by_cases hneg : s.col_layer < 0
    · rw [if_pos hneg]
      constructor
      · intro h; exact absurd h (by decide)
      · rintro ⟨h0, _, _⟩; exact absurd h0 (not_le.mpr hneg)
    · rw [if_neg hneg]
      constructor
      · intro h; exact absurd h (by decide)
      · rintro ⟨h0, hr, _⟩; exact absurd (And.intro h0 hr) hc

theorem sideDecidableRow_iff (s : MeatBagCSVSettings) (row : Row) :
    sideDecidableRow s row = true ↔
      (s.col_layer < 0 ∨
        (0 ≤ s.col_layer ∧ s.col_layer < (row.length : Int) ∧
          (lowerStartsWith ((row.get? s.col_layer.toNat).getD "") "top" = true ∨
            lowerStartsWith ((row.get? s.col_layer.toNat).getD "") "bot" = true))) := by
  unfold sideDecidableRow
  by_cases hneg : s.col_layer < 0
  · rw [if_pos hneg]
    constructor
    · intro _; exact Or.inl hneg
    · intro _; rfl
  · rw [if_neg hneg]
    have h0 : 0 ≤ s.col_layer := not_lt.mp hneg
    by_cases hr : s.col_layer < (row.length : Int)
    · rw [if_pos hr, Bool.or_eq_true]
      constructor
      · intro h; exact Or.inr ⟨h0, hr, h⟩
      · rintro (h | ⟨_, _, h⟩)
        · exact absurd h hneg
        · exact h
    · rw [if_neg hr]
      constructor
      · intro h; exact absurd h (by decide)
      · rintro (h | ⟨_, hr2, _⟩)
        · exact absurd h hneg
        · exact absurd hr2 hr

/-- Claim C2 (amended): side derivation returns top when no layer column is
configured, and otherwise classifies the layer cell case-insensitively by
3-character prefix against "top"/"bot", raising a per-row error (ValueError
in isTopLayer) on any other value; the side FILTER of
update_table_for_selected_side, however, silently drops rows whose side is
undecidable from both side views instead of producing an error. -/
theorem c2_side_derivation :
    (∀ (w : Window) (r : Nat), w.settings.col_layer < 0 → isTopLayer w r = some true) ∧
    (∀ t : String, lowerStartsWith t "top" = true → classifyLayer t = some true) ∧
    (∀ t : String, lowerStartsWith t "top" = false → lowerStartsWith t "bot" = true →
      classifyLayer t = some false) ∧
    (∀ t : String, lowerStartsWith t "top" = false → lowerStartsWith t "bot" = false →
      classifyLayer t = none) ∧
    (∀ (w : Window) (r : Nat), 0 ≤ w.settings.col_layer →
      isTopLayer w r = (cellText w r w.settings.col_layer.toNat).bind classifyLayer) ∧
    (∀ (s : MeatBagCSVSettings) (row : Row), sideDecidableRow s row = false →
      sideFilterPred s "top" row = false ∧ sideFilterPred s "bottom" row = false) := by
  refine ⟨?_, ?_, ?_, ?_, ?_, ?_⟩
  · intro w r h; unfold isTopLayer; rw [if_pos h]
  · intro t h; unfold classifyLayer; rw [if_pos h]
  · intro t h1 h2; unfold classifyLayer
    rw [if_neg (by simp [h1]), if_pos h2]
  · intro t h1 h2; unfold classifyLayer
    rw [if_neg (by simp [h1]), if_neg (by simp [h2])]
  · intro w r h; unfold isTopLayer; rw [if_neg (not_lt.mpr h)]
  · intro s row h
    constructor
    · by_cases hp : sideFilterPred s "top" row = true
      · rcases (sideFilterPred_top_iff s row).mp hp with hneg | ⟨h0, hr, ht⟩
        · rw [(sideDecidableRow_iff s row).mpr (Or.inl hneg)] at h
          exact absurd h (by decide)
        · rw [(sideDecidableRow_iff s row).mpr (Or.inr ⟨h0, hr, Or.inl ht⟩)] at h
          exact absurd h (by decide)
      · exact Bool.eq_false_iff.mpr (fun hc => hp hc)
    · by_cases hp : sideFilterPred s "bottom" row = true
      · rcases (sideFilterPred_bottom_iff s row).mp hp with ⟨h0, hr, hb⟩
        rw [(sideDecidableRow_iff s row).mpr (Or.inr ⟨h0, hr, Or.inr hb⟩)] at h
        exact absurd h (by decide)
      · exact Bool.eq_false_iff.mpr (fun hc => hp hc)

/-- Counterexample to C2 as stated: a Kicad multi-layer row whose layer field
is "mid" has no derivable side (isTopLayer would raise), yet the side filter
silently excludes it from both the top and the bottom view without any
error. -/
theorem c2_counterexample :
    classifyLayer "mid" = none ∧
      sideFilterPred kicadMultiSettings "top" ["R1", "10k", "pkg", "1", "2", "0", "mid"] =
        false ∧
      sideFilterPred kicadMultiSettings "bottom" ["R1", "10k", "pkg", "1", "2", "0", "mid"] =
        false :=
  ⟨by decide, by decide, by decide⟩

/-- A small concrete window used by witnesses. -/
def sampleWindow : Window :=
  { settings := kicadSingleSettings, filtered := [], placed := fun _ => false,
    pdb := [], pdc := [], topDesList := [], botDesList := [], topDes := "",
    botDes := "", place := "", cur_placement := none, build_side := 0,
    drawing_all_same_value := false, marker_diameter := 20 }

/-- Witness for C2: a window with no layer column derives top, and a "TOP..."
layer text classifies as top. -/
theorem c2_witness :
    sampleWindow.settings.col_layer < 0 ∧
      isTopLayer sampleWindow 0 = some true ∧
      lowerStartsWith "TopLayer" "top" = true ∧
      classifyLayer "TopLayer" = some true :=
  ⟨by decide, c2_side_derivation.1 sampleWindow 0 (by decide), by decide,
    c2_side_derivation.2.1 "TopLayer" (by decide)⟩

/-- Claim C3 (amended): the two side views are disjoint, and their union is
the set of accepted row indices whose side is decidable (no layer column
configured, or a present layer field whose lowered text starts with "top" or
"bot"); accepted rows with a missing or unrecognized layer field appear in
neither view. -/
theorem c3_side_views (s : MeatBagCSVSettings) (data : List Row) (i : Nat) :
    ¬(i ∈ sideIndices s data "top" ∧ i ∈ sideIndices s data "bottom") ∧
    ((i ∈ sideIndices s data "top" ∨ i ∈ sideIndices s data "bottom") ↔
      i < data.length ∧ sideDecidableRow s (data.getD i []) = true) := by
  constructor
  · rintro ⟨h1, h2⟩
    rw [sideIndices_mem] at h1 h2
    rcases (sideFilterPred_top_iff s _).mp h1.2 with hneg | ⟨_, _, ht⟩
    · rcases (sideFilterPred_bottom_iff s _).mp h2.2 with ⟨h0, _, _⟩
      exact absurd h0 (not_le.mpr hneg)
    · rcases (sideFilterPred_bottom_iff s _).mp h2.2 with ⟨_, _, hb⟩
      exact lowerStartsWith_top_bot _ ht hb
  · rw [sideIndices_mem, sideIndices_mem]
    constructor
    · rintro (⟨hlen, hp⟩ | ⟨hlen, hp⟩)
      · refine ⟨hlen, (sideDecidableRow_iff s _).mpr ?_⟩
        rcases (sideFilterPred_top_iff s _).mp hp with h | ⟨h0, hr, ht⟩
        · exact Or.inl h
        · exact Or.inr ⟨h0, hr, Or.inl ht⟩
      · refine ⟨hlen, (sideDecidableRow_iff s _).mpr ?_⟩
        rcases (sideFilterPred_bottom_iff s _).mp hp with ⟨h0, hr, hb⟩
        exact Or.inr ⟨h0, hr, Or.inr hb⟩
    · rintro ⟨hlen, hd⟩
      rcases (sideDecidableRow_iff s _).mp hd with h | ⟨h0, hr, ht | hb⟩
      · exact Or.inl ⟨hlen, (sideFilterPred_top_iff s _).mpr (Or.inl h)⟩
      · exact Or.inl ⟨hlen, (sideFilterPred_top_iff s _).mpr (Or.inr ⟨h0, hr, ht⟩)⟩
      · exact Or.inr ⟨hlen, (sideFilterPred_bottom_iff s _).mpr ⟨h0, hr, hb⟩⟩

/-- Counterexample to C3 as stated: under the Kicad multi-layer profile a
7-field row with the unrecognized layer text "mid" is accepted by load (the
load-time grouping succeeds and keeps the row), yet the side filter places
it in neither side view, so the union of the two views misses accepted
index 0. -/
theorem c3_counterexample :
    group_components_by_value kicadMultiSettings
        [["Ref", "Val", "Pkg", "X", "Y", "Rot", "Side"],
         ["R1", "10k", "pkg", "1", "2", "0", "mid"]] =
      some [["Ref", "Val", "Pkg", "X", "Y", "Rot", "Side"],
            ["R1", "10k", "pkg", "1", "2", "0", "mid"]] ∧
      ¬(0 ∈ sideIndices kicadMultiSettings
          [["R1", "10k", "pkg", "1", "2", "0", "mid"]] "top") ∧
      ¬(0 ∈ sideIndices kicadMultiSettings
          [["R1", "10k", "pkg", "1", "2", "0", "mid"]] "bottom") ∧
      ([["R1", "10k", "pkg", "1", "2", "0", "mid"]] : List Row).length = 1 :=
  ⟨by decide, by decide, by decide, rfl⟩

/-- Witness for C3: disjointness of the two views at a concrete table. -/
theorem c3_witness :
    ¬(0 ∈ sideIndices kicadSingleSettings [["R1", "10k", "pkg", "1", "2"]] "top" ∧
        0 ∈ sideIndices kicadSingleSettings [["R1", "10k", "pkg", "1", "2"]] "bottom") :=
  (c3_side_views kicadSingleSettings [["R1", "10k", "pkg", "1", "2"]] 0).1

/-- Claim C9 (amended): with no cursor, update_placement reports "Not Found"
exactly when BOTH sides' match lists are empty and "Done" exactly when some
side's match list is non-empty (the code tests both lists, not the active
side's); the two reports are distinct user-visible states. -/
theorem c9_terminal_states (w : Window) (h : w.cur_placement = none) :
    ∃ w2, update_placement w = some w2 ∧
      (w2.place = "Not Found" ↔ w.topDesList = [] ∧ w.botDesList = []) ∧
      (w2.place = "Done" ↔ ¬(w.topDesList = [] ∧ w.botDesList = [])) ∧
      ("Not Found" : String) ≠ "Done" := by
  have hu : update_placement w =
      some (if w.topDesList.length = 0 ∧ w.botDesList.length = 0 then
              { w with drawing_all_same_value := false, place := "Not Found" }
            else { w with drawing_all_same_value := false, place := "Done" }) := by
    unfold update_placement
    rw [h]
  by_cases hc : w.topDesList.length = 0 ∧ w.botDesList.length = 0
  · rw [if_pos hc] at hu
    refine ⟨_, hu, ?_, ?_, by decide⟩
    · constructor
      · intro _
        exact ⟨List.length_eq_zero.mp hc.1, List.length_eq_zero.mp hc.2⟩
      · intro _; rfl
    · constructor
      · intro hd
        have hx : ("Not Found" : String) = "Done" := hd
        exact absurd hx (by decide)
      · intro hne
        exact absurd ⟨List.length_eq_zero.mp hc.1, List.length_eq_zero.mp hc.2⟩ hne
  · rw [if_neg hc] at hu
    refine ⟨_, hu, ?_, ?_, by decide⟩
    · constructor
      · intro hd
        have hx : ("Done" : String) = "Not Found" := hd
        exact absurd hx (by decide)
      · rintro ⟨h1, h2⟩
        exact absurd ⟨by rw [h1]; rfl, by rw [h2]; rfl⟩ hc
    · constructor
      · rintro _ ⟨h1, h2⟩
        exact hc ⟨by rw [h1]; rfl, by rw [h2]; rfl⟩
      · intro _; rfl

/-- Concrete window refuting C9 as stated: top side active with an empty top
match list, bottom list non-empty. -/
def c9window : Window := { sampleWindow with botDesList := [1] }

/-- Counterexample to C9 as stated: with the active (top) side's match list
empty but the bottom list non-empty, the code reports "Done", not
"Not Found". -/
theorem c9_counterexample :
    activeParts c9window = [] ∧ c9window.cur_placement = none ∧
      (update_placement c9window).map Window.place = some "Done" ∧
      ("Done" : String) ≠ "Not Found" :=
  ⟨rfl, rfl, by decide, by decide⟩

/-- Witness for C9 at a concrete window with both lists empty. -/
theorem c9_witness :
    ∃ w2, update_placement sampleWindow = some w2 ∧
      (w2.place = "Not Found" ↔
        sampleWindow.topDesList = [] ∧ sampleWindow.botDesList = []) ∧
      (w2.place = "Done" ↔
        ¬(sampleWindow.topDesList = [] ∧ sampleWindow.botDesList = [])) ∧
      ("Not Found" : String) ≠ "Done" :=
  c9_terminal_states sampleWindow rfl

/-- Position of the first occurrence of a row index in a match list (the
table order within the list). -/
def idxWithin (r : Nat) : List Nat → Nat
  | [] => 0
  | p :: t => if p = r then 0 else idxWithin r t + 1

theorem find_next_strictly_later (placed : Nat → Bool) :
    ∀ (parts : List Nat) (r r' : Nat),
      parts.find? (fun p => !placed p) = some r →
      parts.find? (fun p => !(if p = r then true else placed p)) = some r' →
      idxWithin r parts < idxWithin r' parts := by
  intro parts
  induction parts with
  | nil => intro r r' h _; exact absurd h (by simp)
  | cons p ps ih =>
    intro r r' h h'
    by_cases hp : placed p = true
    · have hnb : ¬((!placed p) = true) := by simp [hp]
      rw [@List.find?_cons_of_neg Nat (fun q => !placed q) p ps hnb] at h
      have hrp : r ≠ p := by
        intro he
        have hs := List.find?_some h
        rw [he] at hs
        simp [hp] at hs
      have hpr : p ≠ r := fun he => hrp he.symm
      have hnb' : ¬((!(if p = r then true else placed p)) = true) := by
        rw [if_neg hpr]; simp [hp]
      rw [@List.find?_cons_of_neg Nat (fun q => !(if q = r then true else placed q))
        p ps hnb'] at h'
      have hr'p : r' ≠ p := by
        intro he
        have hs := List.find?_some h'
        rw [he, if_neg hpr] at hs
        simp [hp] at hs
      have hlt := ih r r' h h'
      unfold idxWithin
      rw [if_neg hpr, if_neg (fun he : p = r' => hr'p he.symm)]
      omega
    · have hpf : placed p = false := Bool.eq_false_iff.mpr hp
      have hb : (!placed p) = true := by rw [hpf]; rfl
      rw [@List.find?_cons_of_pos Nat (fun q => !placed q) p ps hb] at h
      injection h with h
      subst h
      have hnb' : ¬((!(if p = p then true else placed p)) = true) := by
        rw [if_pos rfl]; simp
      rw [@List.find?_cons_of_neg Nat (fun q => !(if q = p then true else placed q))
        p ps hnb'] at h'
      have hr'p : r' ≠ p := by
        intro he
        have hs := List.find?_some h'
        rw [he, if_pos rfl] at hs
        simp at hs
      unfold idxWithin
      rw [if_pos rfl, if_neg (fun he : p = r' => hr'p he.symm)]
      omega

theorem find_next_none (placed : Nat → Bool) (parts : List Nat)
    (h : ∀ p ∈ parts, placed p = true) :
    parts.find? (fun p => !placed p) = none := by
  rw [List.find?_eq_none]
  intro x hx
  simp [h x hx]

/-- Claim C8: on a state whose cursor was produced by find_next (the only way
the code sets a cursor: it is the first unplaced row of the active side's
match list), the advance sentinel marks that row placed and re-runs
find_next; any new cursor sits strictly later in the active match list, and
when every listed row is placed the cursor becomes None. -/
theorem c8_advance (w : Window) (r : Nat)
    (hcur : w.cur_placement = some r)
    (hfind : (activeParts w).find? (fun p => !w.placed p) = some r) :
    (markCurrentPlaced w).placed r = true ∧
    (∀ r', (advanceCursorOnly w).cur_placement = some r' →
        idxWithin r (activeParts w) < idxWithin r' (activeParts w)) ∧
    ((∀ p ∈ activeParts w, (markCurrentPlaced w).placed p = true) →
        (advanceCursorOnly w).cur_placement = none) ∧
    timesUp_advance w = update_placement (advanceCursorOnly w) := by
  have hmark : markCurrentPlaced w =
      { w with placed := fun p => if p = r then true else w.placed p } := by
    unfold markCurrentPlaced; rw [hcur]
  refine ⟨?_, ?_, ?_, rfl⟩
  · rw [hmark]; simp
  · intro r' h'
    unfold advanceCursorOnly find_next_cursor at h'
    rw [hmark] at h'
    have h2 : (activeParts w).find? (fun p => !(if p = r then true else w.placed p)) =
        some r' := h'
    exact find_next_strictly_later w.placed (activeParts w) r r' hfind h2
  · intro hall
    have h2 : ∀ p ∈ activeParts w, (if p = r then true else w.placed p) = true := by
      intro p hp
      have hq := hall p hp
      rw [hmark] at hq
      exact hq
    have h3 := find_next_none (fun p => if p = r then true else w.placed p)
      (activeParts w) h2
    show (advanceCursorOnly w).cur_placement = none
    unfold advanceCursorOnly find_next_cursor
    rw [hmark]
    exact h3

/-- Concrete window for the C8 witness: two unplaced top-side matches with
the cursor on the first. -/
def c8window : Window :=
  { sampleWindow with topDesList := [3, 7], cur_placement := some 3 }

/-- Witness for C8 at a concrete two-row match list. -/
theorem c8_witness :
    (markCurrentPlaced c8window).placed 3 = true ∧
      (∀ r', (advanceCursorOnly c8window).cur_placement = some r' →
          idxWithin 3 (activeParts c8window) < idxWithin r' (activeParts c8window)) ∧
      ((∀ p ∈ activeParts c8window, (markCurrentPlaced c8window).placed p = true) →
          (advanceCursorOnly c8window).cur_placement = none) ∧
      timesUp_advance c8window = update_placement (advanceCursorOnly c8window) :=
  c8_advance c8window 3 rfl rfl

/-- The matcher-owned state of the window: both match lists and both lookup
pools.  The keystroke path never touches it. -/
def pools (w : Window) : List Nat × List Nat × List String × List String :=
  (w.topDesList, w.botDesList, w.pdb, w.pdc)

theorem pools_update_placement {w w2 : Window} (h : update_placement w = some w2) :
    pools w2 = pools w := by
  unfold update_placement at h
  cases hcur : w.cur_placement with
  | some r =>
    rw [hcur] at h
    rcases Option.bind_eq_some.mp h with ⟨des, _, h⟩
    rcases Option.bind_eq_some.mp h with ⟨xs, _, h⟩
    rcases Option.bind_eq_some.mp h with ⟨ys, _, h⟩
    rcases Option.map_eq_some'.mp h with ⟨top, _, h⟩
    rw [← h]; rfl
  | none =>
    rw [hcur] at h
    injection h with h
    by_cases hc : w.topDesList.length = 0 ∧ w.botDesList.length = 0
    · rw [if_pos hc] at h
      rw [← h]; rfl
    · rw [if_neg hc] at h
      rw [← h]; rfl

theorem pools_toggle {w w2 : Window} {b : Bool}
    (h : toggle_draw_all_of_current_value w = some (w2, b)) : pools w2 = pools w := by
  unfold toggle_draw_all_of_current_value at h
  split at h
  · injection h with h
    rw [Prod.mk.injEq] at h
    exact congrArg pools h.1.symm
  · split at h
    · injection h with h
      rw [Prod.mk.injEq] at h
      exact congrArg pools h.1.symm
    · split at h
      · rcases Option.map_eq_some'.mp h with ⟨w3, hw3, h⟩
        rw [Prod.mk.injEq] at h
        have hgoal : pools w2 = pools w3 := by rw [← h.1]
        exact (hgoal.trans (pools_update_placement hw3)).trans rfl
      · rcases Option.bind_eq_some.mp h with ⟨curPn, _, h⟩
        rcases Option.bind_eq_some.mp h with ⟨matching, _, h⟩
        split at h
        · injection h with h
          rw [Prod.mk.injEq] at h
          exact congrArg pools h.1.symm
        · rcases Option.map_eq_some'.mp h with ⟨w3, hw3, h⟩
          rw [Prod.mk.injEq] at h
          have hgoal : pools w2 = pools w3 := by rw [← h.1]; rfl
          exact hgoal.trans (pools_update_placement hw3)

theorem pools_keystroke {w w2 : Window} {txt : String}
    (h : process_keystroke w txt = some w2) : pools w2 = pools w := by
  simp only [process_keystroke] at h
  by_cases c1 : pyLower txt = "+"
  · have c2 : ¬(pyLower txt = "-") := by rw [c1]; decide
    have c3 : ¬(pyLower txt = "a") := by rw [c1]; decide
    rw [if_pos c1, if_neg c2, if_neg c3] at h
    simp [marker_diameter_increment] at h
    exact (pools_update_placement h).trans rfl
  · by_cases c2 : pyLower txt = "-"
    · have c3 : ¬(pyLower txt = "a") := by rw [c2]; decide
      rw [if_neg c1, if_pos c2, if_neg c3] at h
      by_cases c4 : w.marker_diameter < 10
      · simp [marker_diameter_decrement, if_pos c4] at h
        rw [h]
      · simp [marker_diameter_decrement, if_neg c4] at h
        exact (pools_update_placement h).trans rfl
    · by_cases c3 : pyLower txt = "a"
      · rw [if_neg c1, if_neg c2, if_pos c3] at h
        simp only [Bool.false_or] at h
        rcases Option.bind_eq_some.mp h with ⟨p3, htog, hfin⟩
        obtain ⟨w3, b3⟩ := p3
        have htog2 : toggle_draw_all_of_current_value w = some (w3, b3) := htog
        cases b3 with
        | true =>
          simp at hfin
          exact (pools_update_placement hfin).trans (pools_toggle htog2)
        | false =>
          simp at hfin
          rw [← hfin]
          exact pools_toggle htog2
      · rw [if_neg c1, if_neg c2, if_neg c3] at h
        simp at h
        rw [h]

theorem process_keystroke_plus (w : Window) :
    process_keystroke w "+" =
      update_placement { w with marker_diameter := w.marker_diameter + 10 } := by
  simp only [process_keystroke]
  rw [(by decide : pyLower "+" = "+")]
  rw [if_pos (rfl : ("+" : String) = "+"),
    if_neg (by decide : ¬(("+" : String) = "-")),
    if_neg (by decide : ¬(("+" : String) = "a"))]
  simp [marker_diameter_increment]

/-- Claim C5: a scan shorter than 5 characters is dispatched as a keystroke
command and never reaches the matcher (the keystroke path leaves the match
lists and both lookup pools untouched); in particular the scan "+" only
increments the marker diameter and then refreshes the placement display
(redraw); every scan of length at least 5 is treated as a lookup token. -/
theorem c5_scan_dispatch :
    (∀ (w : Window) (scan : String), scan.length < 5 →
        process_new_scan w scan = ScanStep.keystroke (process_keystroke w scan)) ∧
    (∀ (w w2 : Window) (txt : String), process_keystroke w txt = some w2 →
        pools w2 = pools w) ∧
    (∀ w : Window, process_new_scan w "+" =
        ScanStep.keystroke
          (update_placement { w with marker_diameter := w.marker_diameter + 10 })) ∧
    (∀ (w : Window) (scan : String), 5 ≤ scan.length →
        process_new_scan w scan = ScanStep.lookup scan (scan_lookup w scan)) := by
  refine ⟨?_, ?_, ?_, ?_⟩
  · intro w scan h
    unfold process_new_scan
    rw [if_pos h]
  · intro w w2 txt h
    exact pools_keystroke h
  · intro w
    have h1 : process_new_scan w "+" = ScanStep.keystroke (process_keystroke w "+") := by
      unfold process_new_scan
      rw [if_pos (by decide : ("+" : String).length < 5)]
    rw [h1, process_keystroke_plus w]
  · intro w scan h
    unfold process_new_scan
    rw [if_neg (not_lt.mpr h)]

/-- Witness for C5: a 2-character scan goes down the keystroke path, a
5-character scan down the lookup path. -/
theorem c5_witness :
    ("ab" : String).length < 5 ∧
      process_new_scan sampleWindow "ab" =
        ScanStep.keystroke (process_keystroke sampleWindow "ab") ∧
      5 ≤ ("ABCDE" : String).length ∧
      process_new_scan sampleWindow "ABCDE" =
        ScanStep.lookup "ABCDE" (scan_lookup sampleWindow "ABCDE") :=
  ⟨by decide, c5_scan_dispatch.1 sampleWindow "ab" (by decide), by decide,
    c5_scan_dispatch.2.2.2 sampleWindow "ABCDE" (by decide)⟩

theorem pnMatchlist_lt (pdb : List String) (pn : String) (i : Nat)
    (h : i ∈ pnMatchlist pdb pn) : i < pdb.length := by
  unfold pnMatchlist at h
  rw [List.mem_filter, List.mem_range] at h
  exact h.1

theorem comMatchlist_lt (pdc : List String) (com : String) (i : Nat)
    (h : i ∈ comMatchlist pdc com) : i < pdc.length := by
  unfold comMatchlist at h
  rw [List.mem_filter, List.mem_range] at h
  exact h.1

theorem partitionMatches_bot_mem (w : Window) :
    ∀ (ml t b : List Nat) (ts bs : String) (res : List Nat × List Nat × String × String),
      partitionMatches w ml t b ts bs = some res →
      ∀ i ∈ res.2.1, i ∈ b ∨ (i ∈ ml ∧ isTopLayer w i = some false) := by
  intro ml
  induction ml with
  | nil =>
    intro t b ts bs res h i hi
    unfold partitionMatches at h
    injection h with h
    subst h
    exact Or.inl hi
  | cons r rest ih =>
    intro t b ts bs res h i hi
    unfold partitionMatches at h
    rcases Option.bind_eq_some.mp h with ⟨top, htop, h2⟩
    rcases Option.bind_eq_some.mp h2 with ⟨des, hdes, h3⟩
    cases top with
    | true =>
      rw [if_pos rfl] at h3
      rcases ih _ _ _ _ _ h3 i hi with hb | ⟨hml, hl⟩
      · exact Or.inl hb
      · exact Or.inr ⟨List.mem_cons_of_mem _ hml, hl⟩
    | false =>
      rw [if_neg (by decide : ¬((false : Bool) = true))] at h3
      rcases ih _ _ _ _ _ h3 i hi with hb | ⟨hml, hl⟩
      · rcases List.mem_append.mp hb with hb2 | hb2
        · exact Or.inl hb2
        · have he : i = r := List.mem_singleton.mp hb2
          subst he
          exact Or.inr ⟨List.mem_cons_self _ _, htop⟩
      · exact Or.inr ⟨List.mem_cons_of_mem _ hml, hl⟩

theorem partitionMatches_top_mem (w : Window) :
    ∀ (ml t b : List Nat) (ts bs : String) (res : List Nat × List Nat × String × String),
      partitionMatches w ml t b ts bs = some res →
      ∀ i ∈ res.1, i ∈ t ∨ (i ∈ ml ∧ isTopLayer w i = some true) := by
  intro ml
  induction ml with
  | nil =>
    intro t b ts bs res h i hi
    unfold partitionMatches at h
    injection h with h
    subst h
    exact Or.inl hi
  | cons r rest ih =>
    intro t b ts bs res h i hi
    unfold partitionMatches at h
    rcases Option.bind_eq_some.mp h with ⟨top, htop, h2⟩
    rcases Option.bind_eq_some.mp h2 with ⟨des, hdes, h3⟩
    cases top with
    | true =>
      rw [if_pos rfl] at h3
      rcases ih _ _ _ _ _ h3 i hi with ht | ⟨hml, hl⟩
      · rcases List.mem_append.mp ht with ht2 | ht2
        · exact Or.inl ht2
        · have he : i = r := List.mem_singleton.mp ht2
          subst he
          exact Or.inr ⟨List.mem_cons_self _ _, htop⟩
      · exact Or.inr ⟨List.mem_cons_of_mem _ hml, hl⟩
    | false =>
      rw [if_neg (by decide : ¬((false : Bool) = true))] at h3
      rcases ih _ _ _ _ _ h3 i hi with ht | ⟨hml, hl⟩
      · exact Or.inl ht
      · exact Or.inr ⟨List.mem_cons_of_mem _ hml, hl⟩

theorem filteredRow_side (s : MeatBagCSVSettings) (header : Row) (data : List Row)
    (side : Nat) (w2 : Window)
    (hw2set : w2.settings = s)
    (hw2f : w2.filtered = filtered_data s (header :: data) side)
    (i : Nat) (h1 : i ≠ 0) (hlen : i < w2.filtered.length) (v : Bool)
    (hv : isTopLayer w2 i = some v) :
    (side = 0 → v = true) ∧ (¬side = 0 → v = false) := by
  obtain ⟨j, rfl⟩ : ∃ j, i = j + 1 := ⟨i - 1, by omega⟩
  have hfd : filtered_data s (header :: data) side =
      header :: data.filter (sideFilterPred s (if side = 0 then "top" else "bottom")) := rfl
  have hjlen : j < (data.filter
      (sideFilterPred s (if side = 0 then "top" else "bottom"))).length := by
    rw [hw2f, hfd] at hlen
    simpa using hlen
  obtain ⟨row, hrow⟩ : ∃ row,
      (data.filter (sideFilterPred s (if side = 0 then "top" else "bottom"))).get? j =
        some row :=
    ⟨_, List.get?_eq_get hjlen⟩
  have hget : w2.filtered.get? (j + 1) = some row := by
    rw [hw2f, hfd, List.get?_cons_succ, hrow]
  have hmem : row ∈ data.filter (sideFilterPred s (if side = 0 then "top" else "bottom")) :=
    List.get?_mem hrow
  have hpred := (List.mem_filter.mp hmem).2
  unfold isTopLayer at hv
  rw [hw2set] at hv
  by_cases hneg : s.col_layer < 0
  · rw [if_pos hneg] at hv
    injection hv with hv
    constructor
    · intro _; exact hv.symm
    · intro hside
      exfalso
      rw [if_neg hside] at hpred
      rcases (sideFilterPred_bottom_iff s row).mp hpred with ⟨h0, _, _⟩
      exact absurd h0 (not_le.mpr hneg)
  · rw [if_neg hneg] at hv
    have h0 : 0 ≤ s.col_layer := not_lt.mp hneg
    rcases Option.bind_eq_some.mp hv with ⟨txt, htxt, hcl⟩
    unfold cellText at htxt
    split at htxt
    · injection htxt with htxt
      have hrfield : ((w2.filtered.get? (j + 1)).getD []).get? s.col_layer.toNat =
          row.get? s.col_layer.toNat := by
        rw [hget, Option.getD_some]
      by_cases hside : side = 0
      · rw [if_pos hside] at hpred
        rcases (sideFilterPred_top_iff s row).mp hpred with hcon | ⟨_, hr, ht⟩
        · exact absurd hcon hneg
        · have hc : s.col_layer.toNat < row.length := by
            have hcast : (s.col_layer.toNat : Int) = s.col_layer := Int.toNat_of_nonneg h0
            omega
          obtain ⟨f, hf⟩ : ∃ f, row.get? s.col_layer.toNat = some f :=
            ⟨_, List.get?_eq_get hc⟩
          rw [hf, Option.getD_some] at ht
          rw [hrfield, hf, Option.getD_some] at htxt
          rw [← htxt] at hcl
          unfold classifyLayer at hcl
          rw [if_pos ht] at hcl
          injection hcl with hcl
          refine ⟨fun _ => hcl.symm, fun hs => absurd hside hs⟩
      · rw [if_neg hside] at hpred
        rcases (sideFilterPred_bottom_iff s row).mp hpred with ⟨_, hr, hb⟩
        have hc : s.col_layer.toNat < row.length := by
          have hcast : (s.col_layer.toNat : Int) = s.col_layer := Int.toNat_of_nonneg h0
          omega
        obtain ⟨f, hf⟩ : ∃ f, row.get? s.col_layer.toNat = some f :=
          ⟨_, List.get?_eq_get hc⟩
        rw [hf, Option.getD_some] at hb
        rw [hrfield, hf, Option.getD_some] at htxt
        rw [← htxt] at hcl
        have hnt : ¬(lowerStartsWith f "top" = true) := by
          intro ht
          exact lowerStartsWith_top_bot f ht hb
        unfold classifyLayer at hcl
        rw [if_neg hnt, if_pos hb] at hcl
        injection hcl with hcl
        refine ⟨fun hs => absurd hs hside, fun _ => hcl.symm⟩
    · split at htxt
      · injection htxt with htxt
        rw [← htxt] at hcl
        have hnone : classifyLayer "" = none := by decide
        rw [hnone] at hcl
        exact Option.noConfusion hcl
      · exact Option.noConfusion htxt

/-- Claim C10: after update_table_for_selected_side, BOTH lookup pools (the
part-number list pdb and the value/comment list pdc) are rebuilt exclusively
from the side-filtered rows plus the header (index 0), so every index matched
by either matcher refers to the filtered table, and whenever the partition by
side succeeds, the match list for the opposite side contains no component row
(at most the header index 0) -- for part-number and for comment matching
alike. -/
theorem c10_pools_follow_side (w : Window) (all : List Row) (hne : all ≠ [])
    (pn com : String) :
    ((update_table_for_selected_side w all).pdb =
        pdbOf w.settings (update_table_for_selected_side w all).filtered) ∧
    ((update_table_for_selected_side w all).pdc =
        pdcOf w.settings (update_table_for_selected_side w all).filtered) ∧
    (∀ i ∈ pnMatchlist (update_table_for_selected_side w all).pdb pn,
        i < (update_table_for_selected_side w all).filtered.length) ∧
    (∀ i ∈ comMatchlist (update_table_for_selected_side w all).pdc com,
        i < (update_table_for_selected_side w all).filtered.length) ∧
    (∀ res : List Nat × List Nat × String × String,
        partitionMatches (update_table_for_selected_side w all)
            (pnMatchlist (update_table_for_selected_side w all).pdb pn) [] [] "" "" =
          some res →
        (w.build_side = 0 → ∀ i ∈ res.2.1, i = 0) ∧
        (¬w.build_side = 0 → ∀ i ∈ res.1, i = 0)) ∧
    (∀ res : List Nat × List Nat × String × String,
        partitionMatches (update_table_for_selected_side w all)
            (comMatchlist (update_table_for_selected_side w all).pdc com) [] [] "" "" =
          some res →
        (w.build_side = 0 → ∀ i ∈ res.2.1, i = 0) ∧
        (¬w.build_side = 0 → ∀ i ∈ res.1, i = 0)) := by
  cases all with
  | nil => exact absurd rfl hne
  | cons header data =>
    have hup : update_table_for_selected_side w (header :: data) =
        { w with
          filtered := filtered_data w.settings (header :: data) w.build_side,
          pdb := pdbOf w.settings (filtered_data w.settings (header :: data) w.build_side),
          pdc := pdcOf w.settings (filtered_data w.settings (header :: data) w.build_side),
          placed := fun _ => false } := by
      unfold update_table_for_selected_side
      rw [if_neg (by simp)]
    have hlenpp : ∀ i ∈ pnMatchlist (update_table_for_selected_side w (header :: data)).pdb pn,
        i < (update_table_for_selected_side w (header :: data)).filtered.length := by
      intro i hi
      have hlt := pnMatchlist_lt _ _ _ hi
      rw [hup] at hlt ⊢
      simpa [pdbOf] using hlt
    have hlenpc : ∀ i ∈ comMatchlist (update_table_for_selected_side w (header :: data)).pdc com,
        i < (update_table_for_selected_side w (header :: data)).filtered.length := by
      intro i hi
      have hlt := comMatchlist_lt _ _ _ hi
      rw [hup] at hlt ⊢
      simpa [pdcOf] using hlt
    have hkey : ∀ ml : List Nat,
        (∀ i ∈ ml, i < (update_table_for_selected_side w (header :: data)).filtered.length) →
        ∀ res : List Nat × List Nat × String × String,
          partitionMatches (update_table_for_selected_side w (header :: data)) ml [] [] "" "" =
            some res →
          (w.build_side = 0 → ∀ i ∈ res.2.1, i = 0) ∧
          (¬w.build_side = 0 → ∀ i ∈ res.1, i = 0) := by
      intro ml hlen res hres
      constructor
      · intro hside i hib
        rcases partitionMatches_bot_mem _ _ _ _ _ _ _ hres i hib with hin | ⟨hml, hl⟩
        · exact absurd hin (List.not_mem_nil i)
        · by_cases hz : i = 0
          · exact hz
          · exfalso
            have hv := filteredRow_side w.settings header data w.build_side
              (update_table_for_selected_side w (header :: data))
              (by rw [hup]) (by rw [hup]) i hz (hlen i hml) false hl
            exact absurd (hv.1 hside) (by decide)
      · intro hside i hit
        rcases partitionMatches_top_mem _ _ _ _ _ _ _ hres i hit with hin | ⟨hml, hl⟩
        · exact absurd hin (List.not_mem_nil i)
        · by_cases hz : i = 0
          · exact hz
          · exfalso
            have hv := filteredRow_side w.settings header data w.build_side
              (update_table_for_selected_side w (header :: data))
              (by rw [hup]) (by rw [hup]) i hz (hlen i hml) true hl
            exact absurd (hv.2 hside) (by decide)
    refine ⟨by rw [hup], by rw [hup], hlenpp, hlenpc, ?_, ?_⟩
    · intro res hres
      exact hkey _ hlenpp res hres
    · intro res hres
      exact hkey _ hlenpc res hres

/-- Concrete table for the C10 witness: Kicad multi-layer layout with one top
and one bottom component sharing the value "10k". -/
def c10all : List Row :=
  [["Ref", "Val", "Pkg", "X", "Y", "Rot", "Side"],
   ["R1", "10k", "p", "1", "2", "0", "top"],
   ["R2", "10k", "p", "3", "4", "0", "bottom"]]

/-- Concrete window for the C10 witness. -/
def c10window : Window := { sampleWindow with settings := kicadMultiSettings }

/-- Witness for C10 at a concrete two-component table, for both the
part-number pool and the value/comment pool. -/
theorem c10_witness :
    c10all ≠ [] ∧
      (∀ i ∈ pnMatchlist (update_table_for_selected_side c10window c10all).pdb "10k",
        i < (update_table_for_selected_side c10window c10all).filtered.length) ∧
      (∀ i ∈ comMatchlist (update_table_for_selected_side c10window c10all).pdc "10k",
        i < (update_table_for_selected_side c10window c10all).filtered.length) :=
  ⟨by decide,
    (c10_pools_follow_side c10window c10all (by decide) "10k" "10k").2.2.1,
    (c10_pools_follow_side c10window c10all (by decide) "10k" "10k").2.2.2.1⟩

theorem insertGroup_keys_mem :
    ∀ (gs : List (String × List Row)) (k : String) (row : Row),
      k ∈ gs.map Prod.fst →
      (insertGroup gs k row).map Prod.fst = gs.map Prod.fst := by
  intro gs
  induction gs with
  | nil => intro k row h; exact absurd h (List.not_mem_nil k)
  | cons p ps ih =>
    intro k row h
    obtain ⟨k0, g0⟩ := p
    simp only [List.map_cons] at h
    unfold insertGroup
    by_cases he : k0 = k
    · rw [if_pos he]
      rfl
    · rw [if_neg he]
      have h2 : k ∈ ps.map Prod.fst := by
        rcases List.mem_cons.mp h with h3 | h3
        · exact absurd h3.symm he
        · exact h3
      simp only [List.map_cons]
      rw [ih k row h2]

theorem insertGroup_keys_not_mem :
    ∀ (gs : List (String × List Row)) (k : String) (row : Row),
      k ∉ gs.map Prod.fst →
      (insertGroup gs k row).map Prod.fst = gs.map Prod.fst ++ [k] := by
  intro gs
  induction gs with
  | nil => intro k row _; rfl
  | cons p ps ih =>
    intro k row h
    obtain ⟨k0, g0⟩ := p
    simp only [List.map_cons] at h
    have hne : ¬(k0 = k) := fun he => h (by rw [he]; exact List.mem_cons_self _ _)
    unfold insertGroup
    rw [if_neg hne]
    simp only [List.map_cons, List.cons_append]
    rw [ih k row (fun hm => h (List.mem_cons_of_mem _ hm))]

theorem insertGroup_nodup (gs : List (String × List Row)) (k : String) (row : Row)
    (h : (gs.map Prod.fst).Nodup) : ((insertGroup gs k row).map Prod.fst).Nodup := by
  by_cases hk : k ∈ gs.map Prod.fst
  · rw [insertGroup_keys_mem gs k row hk]; exact h
  · rw [insertGroup_keys_not_mem gs k row hk]
    rw [List.nodup_append]
    refine ⟨h, List.nodup_singleton k, ?_⟩
    intro a ha hb
    rw [List.mem_singleton.mp hb] at ha
    exact hk ha

theorem insertGroup_forall {P : String → Row → Prop} :
    ∀ (gs : List (String × List Row)) (k : String) (row : Row),
      (∀ p ∈ gs, p.2 ≠ [] ∧ ∀ x ∈ p.2, P p.1 x) → P k row →
      ∀ p ∈ insertGroup gs k row, p.2 ≠ [] ∧ ∀ x ∈ p.2, P p.1 x := by
  intro gs
  induction gs with
  | nil =>
    intro k row _ hk p hp
    have hp2 : p = (k, [row]) := List.mem_singleton.mp hp
    subst hp2
    refine ⟨by simp, ?_⟩
    intro x hx
    have hx2 : x = row := List.mem_singleton.mp hx
    subst hx2
    exact hk
  | cons q qs ih =>
    intro k row hall hk p hp
    obtain ⟨k0, g0⟩ := q
    unfold insertGroup at hp
    by_cases he : k0 = k
    · rw [if_pos he] at hp
      rcases List.mem_cons.mp hp with rfl | hp2
      · refine ⟨by simp, ?_⟩
        intro x hx
        rcases List.mem_append.mp hx with hx2 | hx2
        · exact (hall (k0, g0) (List.mem_cons_self _ _)).2 x hx2
        · rw [List.mem_singleton.mp hx2]
          show P k0 row
          rw [he]
          exact hk
      · exact hall p (List.mem_cons_of_mem _ hp2)
    · rw [if_neg he] at hp
      rcases List.mem_cons.mp hp with rfl | hp2
      · exact hall (k0, g0) (List.mem_cons_self _ _)
      · exact ih k row (fun q2 hq2 => hall q2 (List.mem_cons_of_mem _ hq2)) hk p hp2

/-- The invariant of the value_groups structure: distinct keys, non-empty
groups, and every stored row non-skipped with the group's key. -/
def GroupInv (s : MeatBagCSVSettings) (gs : List (String × List Row)) : Prop :=
  (gs.map Prod.fst).Nodup ∧
    ∀ p ∈ gs, p.2 ≠ [] ∧ ∀ x ∈ p.2, ¬(x.length ≤ s.col_com) ∧ rowKey s x = some p.1

theorem buildGroupsAux_inv (s : MeatBagCSVSettings) :
    ∀ (rows : List Row) (acc gs : List (String × List Row)),
      buildGroupsAux s acc rows = some gs → GroupInv s acc → GroupInv s gs := by
  intro rows
  induction rows with
  | nil =>
    intro acc gs h hi
    unfold buildGroupsAux at h
    injection h with h
    rw [← h]
    exact hi
  | cons row rest ih =>
    intro acc gs h hi
    unfold buildGroupsAux at h
    split at h
    · exact ih _ _ h hi
    · rename_i hskip
      rcases Option.bind_eq_some.mp h with ⟨k, hk, h2⟩
      refine ih _ _ h2 ⟨insertGroup_nodup acc k row hi.1, ?_⟩
      exact @insertGroup_forall
        (fun key x => ¬(x.length ≤ s.col_com) ∧ rowKey s x = some key)
        acc k row hi.2 ⟨hskip, hk⟩

theorem buildGroupsAux_cons (s : MeatBagCSVSettings) (acc : List (String × List Row))
    (row : Row) (rest : List Row) :
    buildGroupsAux s acc (row :: rest) =
      if row.length ≤ s.col_com then buildGroupsAux s acc rest
      else (rowKey s row).bind fun k => buildGroupsAux s (insertGroup acc k row) rest := rfl

theorem insertGroup_not_mem_eq :
    ∀ (acc : List (String × List Row)) (k : String) (row : Row),
      k ∉ acc.map Prod.fst → insertGroup acc k row = acc ++ [(k, [row])] := by
  intro acc
  induction acc with
  | nil => intro k row _; rfl
  | cons p ps ih =>
    intro k row h
    obtain ⟨k0, g0⟩ := p
    simp only [List.map_cons] at h
    have hne : ¬(k0 = k) := fun he => h (by rw [he]; exact List.mem_cons_self _ _)
    unfold insertGroup
    rw [if_neg hne, ih k row (fun hm => h (List.mem_cons_of_mem _ hm))]
    rfl

theorem insertGroup_append_last :
    ∀ (acc : List (String × List Row)) (k : String) (g : List Row) (row : Row),
      k ∉ acc.map Prod.fst →
      insertGroup (acc ++ [(k, g)]) k row = acc ++ [(k, g ++ [row])] := by
  intro acc
  induction acc with
  | nil =>
    intro k g row _
    simp only [List.nil_append]
    unfold insertGroup
    rw [if_pos rfl]
  | cons p ps ih =>
    intro k g row h
    obtain ⟨k0, g0⟩ := p
    simp only [List.map_cons] at h
    have hne : ¬(k0 = k) := fun he => h (by rw [he]; exact List.mem_cons_self _ _)
    simp only [List.cons_append]
    unfold insertGroup
    rw [if_neg hne, ih k g row (fun hm => h (List.mem_cons_of_mem _ hm))]

theorem buildGroupsAux_block (s : MeatBagCSVSettings) (k : String) :
    ∀ (rows : List Row) (acc : List (String × List Row)) (g tail : List Row),
      (∀ x ∈ rows, ¬(x.length ≤ s.col_com) ∧ rowKey s x = some k) →
      k ∉ acc.map Prod.fst →
      buildGroupsAux s (acc ++ [(k, g)]) (rows ++ tail) =
        buildGroupsAux s (acc ++ [(k, g ++ rows)]) tail := by
  intro rows
  induction rows with
  | nil =>
    intro acc g tail _ _
    simp
  | cons x xs ih =>
    intro acc g tail hrows hk
    have hx := hrows x (List.mem_cons_self _ _)
    simp only [List.cons_append]
    rw [buildGroupsAux_cons, if_neg hx.1, hx.2, Option.some_bind,
      insertGroup_append_last acc k g x hk]
    rw [ih acc (g ++ [x]) tail (fun y hy => hrows y (List.mem_cons_of_mem _ hy)) hk]
    simp only [List.append_assoc, List.singleton_append]

theorem buildGroupsAux_flatten (s : MeatBagCSVSettings) :
    ∀ (gs acc : List (String × List Row)),
      (∀ p ∈ gs, p.2 ≠ [] ∧ ∀ x ∈ p.2, ¬(x.length ≤ s.col_com) ∧ rowKey s x = some p.1) →
      (gs.map Prod.fst).Nodup →
      (∀ k2 ∈ gs.map Prod.fst, k2 ∉ acc.map Prod.fst) →
      buildGroupsAux s acc ((gs.map Prod.snd).flatten) = some (acc ++ gs) := by
  intro gs
  induction gs with
  | nil =>
    intro acc _ _ _
    simp [buildGroupsAux]
  | cons q qs ih =>
    intro acc hall hnod hdis
    obtain ⟨k, g⟩ := q
    have hgprop := hall (k, g) (List.mem_cons_self _ _)
    have hkacc : k ∉ acc.map Prod.fst := hdis k (by simp)
    cases hgg : g with
    | nil => exact absurd hgg hgprop.1
    | cons x g' =>
      have hxprop : ¬(x.length ≤ s.col_com) ∧ rowKey s x = some k := by
        have := hgprop.2 x (by rw [hgg]; exact List.mem_cons_self _ _)
        exact this
      simp only [List.map_cons, List.flatten_cons]
      have hstep : buildGroupsAux s acc ((x :: g') ++ (qs.map Prod.snd).flatten) =
          buildGroupsAux s (acc ++ [(k, [x])]) (g' ++ (qs.map Prod.snd).flatten) := by
        simp only [List.cons_append]
        rw [buildGroupsAux_cons, if_neg hxprop.1, hxprop.2, Option.some_bind,
          insertGroup_not_mem_eq acc k x hkacc]
      rw [hstep]
      rw [buildGroupsAux_block s k g' acc [x] ((qs.map Prod.snd).flatten)
        (fun y hy => hgprop.2 y (by rw [hgg]; exact List.mem_cons_of_mem _ hy)) hkacc]
      simp only [List.singleton_append]
      have hnod2 : (qs.map Prod.fst).Nodup := by
        simp only [List.map_cons] at hnod
        exact hnod.of_cons
      have hdis2 : ∀ k2 ∈ qs.map Prod.fst, k2 ∉ (acc ++ [(k, x :: g')]).map Prod.fst := by
        intro k2 hk2 hmem
        rw [List.map_append] at hmem
        rcases List.mem_append.mp hmem with hin | hin
        · exact hdis k2 (List.mem_cons_of_mem _ hk2) hin
        · have hkk : k2 = k := by simpa using hin
          subst hkk
          simp only [List.map_cons] at hnod
          exact (List.nodup_cons.mp hnod).1 hk2
      rw [ih (acc ++ [(k, x :: g')])
        (fun p hp => hall p (List.mem_cons_of_mem _ hp)) hnod2 hdis2]
      simp [List.append_assoc]

theorem mem_insertionSortB {α : Type} (le : α → α → Bool) (l : List α) (z : α) :
    z ∈ insertionSortB le l ↔ z ∈ l :=
  (perm_insertionSortB le l).mem_iff

theorem group_components_cons (s : MeatBagCSVSettings) (header : Row)
    (data : List Row) :
    group_components_by_value s (header :: data) =
      (buildGroupsAux s [] data).map fun groups =>
        header ::
          ((insertionSortB groupKeyLe groups).map (fun p => sortComponents s p.2)).flatten :=
  rfl

/-- Claim C4: the load-time grouping step (group data rows by the value_layer
key, sort components by designator within each group, order groups by key) is
idempotent -- applying group_components_by_value to an already-grouped row
sequence returns exactly that sequence. -/
theorem c4_grouping_idempotent (s : MeatBagCSVSettings) (ppdata out : List Row)
    (h : group_components_by_value s ppdata = some out) :
    group_components_by_value s out = some out := by
  unfold group_components_by_value at h
  cases ppdata with
  | nil =>
    injection h with h
    rw [← h]
    rfl
  | cons header data =>
    rcases Option.map_eq_some'.mp h with ⟨gs, hgs, hout0⟩
    have hout : header ::
        ((insertionSortB groupKeyLe gs).map (fun p => sortComponents s p.2)).flatten =
          out := hout0
    clear hout0 h
    have hinv : GroupInv s gs :=
      buildGroupsAux_inv s data [] gs hgs
        ⟨List.nodup_nil, fun p hp => absurd hp (List.not_mem_nil p)⟩
    have htot : ∀ a b : String × List Row,
        groupKeyLe a b = true ∨ groupKeyLe b a = true :=
      fun a b => keyLe_total a.1 b.1
    have htrans : ∀ a b c : String × List Row,
        groupKeyLe a b = true → groupKeyLe b c = true → groupKeyLe a c = true :=
      fun a b c h1 h2 => keyLe_trans h1 h2
    have hdtot : ∀ a b : Row, desLe s a b = true ∨ desLe s b a = true :=
      fun a b => keyLe_total _ _
    have hdtrans : ∀ a b c : Row,
        desLe s a b = true → desLe s b c = true → desLe s a c = true :=
      fun a b c h1 h2 => keyLe_trans h1 h2
    set sg := insertionSortB groupKeyLe gs with hsg
    have hperm : sg.Perm gs := perm_insertionSortB groupKeyLe gs
    have hsorted : sg.Pairwise (fun a b => groupKeyLe a b = true) :=
      pairwise_insertionSortB groupKeyLe htot htrans gs
    set gs2 := sg.map (fun p => (p.1, sortComponents s p.2)) with hgs2
    have hblocks : sg.map (fun p => sortComponents s p.2) = gs2.map Prod.snd := by
      rw [hgs2, List.map_map]
      rfl
    have hout2 : out = header :: (gs2.map Prod.snd).flatten := by
      rw [← hout, hblocks]
    have hall2 : ∀ p ∈ gs2, p.2 ≠ [] ∧
        ∀ x ∈ p.2, ¬(x.length ≤ s.col_com) ∧ rowKey s x = some p.1 := by
      intro p hp
      rw [hgs2] at hp
      rcases List.mem_map.mp hp with ⟨q, hq, rfl⟩
      have hqgs : q ∈ gs := hperm.mem_iff.mp hq
      have hqi := hinv.2 q hqgs
      have hp2 : (sortComponents s q.2).Perm q.2 := perm_insertionSortB (desLe s) q.2
      constructor
      · intro hnil
        have hnil2 : sortComponents s q.2 = [] := hnil
        rw [hnil2] at hp2
        exact absurd hp2.symm.eq_nil hqi.1
      · intro x hx
        exact hqi.2 x (hp2.mem_iff.mp hx)
    have hnod2 : (gs2.map Prod.fst).Nodup := by
      have hfst : gs2.map Prod.fst = sg.map Prod.fst := by
        rw [hgs2, List.map_map]
        rfl
      rw [hfst]
      exact ((hperm.map Prod.fst).symm).nodup hinv.1
    have hsorted2 : gs2.Pairwise (fun a b => groupKeyLe a b = true) := by
      rw [hgs2]
      exact List.Pairwise.map _ (fun a b hab => hab) hsorted
    have hrebuild := buildGroupsAux_flatten s gs2 [] hall2 hnod2
      (fun k2 _ hmem => List.not_mem_nil k2 hmem)
    rw [hout2, group_components_cons]
    rw [hrebuild]
    simp only [Option.map_some', List.nil_append]
    rw [insertionSortB_of_pairwise groupKeyLe gs2 hsorted2]
    have hmaps : gs2.map (fun p => sortComponents s p.2) = gs2.map Prod.snd := by
      rw [hgs2, List.map_map, List.map_map]
      apply List.map_congr_left
      intro q _
      show sortComponents s (sortComponents s q.2) = sortComponents s q.2
      exact insertionSortB_of_pairwise (desLe s) (sortComponents s q.2)
        (pairwise_insertionSortB (desLe s) hdtot hdtrans q.2)
    rw [hmaps]

/-- Witness for C4: grouping a small Kicad-style table once and then again
returns the same order. -/
theorem c4_witness :
    group_components_by_value kicadSingleSettings
        [["Ref", "Val"], ["R2", "20k"], ["R1", "10k"]] =
      some [["Ref", "Val"], ["R1", "10k"], ["R2", "20k"]] ∧
    group_components_by_value kicadSingleSettings
        [["Ref", "Val"], ["R1", "10k"], ["R2", "20k"]] =
      some [["Ref", "Val"], ["R1", "10k"], ["R2", "20k"]] :=
  ⟨by decide,
    c4_grouping_idempotent kicadSingleSettings
      [["Ref", "Val"], ["R2", "20k"], ["R1", "10k"]]
      [["Ref", "Val"], ["R1", "10k"], ["R2", "20k"]] (by decide)⟩
